import Mathlib

/-!
Shallow embedding of `get_contact_trace.py` (GetContacts trace tool).

The program reads contact files, compiles interaction patterns (pairs of
regular expressions), computes for every (pattern, file) pair the sorted set
of frame indices at which the pattern matches a contact record, and hands the
resulting frame sets together with per-pair labels to a (stubbed) renderer.

Embedded functions, keeping the source names:
* `parse_interaction_patterns` — splits raw pattern strings and compiles them
  (compilation of an individual token by the external `re` library is a
  parameter `compile`);
* `parse_labels` — validates user labels or derives default labels;
* `filter_contacts` — the frame filter (nested loop over patterns × files);
* `write_trace` — the stubbed renderer, whose `assert` is modelled as a guard;
* `main` — the pipeline of the above (contact-file parsing itself is the
  external `contact_calc` collaborator, so files arrive pre-parsed as
  `ContactFile` values).

Python's `re` engine is modelled by a small regular-expression syntax `Regex`
with a declarative matching relation `RMatch` and an executable
Brzozowski-derivative matcher; `re.match` (match at position 0, not
necessarily consuming the whole string) is `Regex.pmatch` / `re_match`, and
`re.fullmatch` is `Regex.fullmatch`.
-/

/-- Syntax of the regular expressions used to model the external `re` library:
failure, empty string, single character, wildcard `.`, character class
`[...]`, concatenation, alternation and Kleene star. -/
inductive Regex : Type where
  | fail : Regex
  | epsilon : Regex
  | char : Char → Regex
  | any : Regex
  | cls : List Char → Regex
  | concat : Regex → Regex → Regex
  | alt : Regex → Regex → Regex
  | star : Regex → Regex
deriving DecidableEq

/-- Declarative semantics of `Regex`: `RMatch r s` holds when the regular
expression `r` matches exactly the character list `s`. -/
inductive RMatch : Regex → List Char → Prop where
  | epsilon : RMatch .epsilon []
  | char (c : Char) : RMatch (.char c) [c]
  | any (c : Char) : RMatch .any [c]
  | cls {c : Char} {cs : List Char} : c ∈ cs → RMatch (.cls cs) [c]
  | concat {r1 r2 : Regex} {s1 s2 : List Char} :
      RMatch r1 s1 → RMatch r2 s2 → RMatch (.concat r1 r2) (s1 ++ s2)
  | altL {r1 r2 : Regex} {s : List Char} : RMatch r1 s → RMatch (.alt r1 r2) s
  | altR {r1 r2 : Regex} {s : List Char} : RMatch r2 s → RMatch (.alt r1 r2) s
  | starNil (r : Regex) : RMatch (.star r) []
  | starCons {r : Regex} {s1 s2 : List Char} :
      RMatch r s1 → RMatch (.star r) s2 → RMatch (.star r) (s1 ++ s2)

/-- Does the regular expression accept the empty string? -/
def Regex.nullable : Regex → Bool
  | .fail => false
  | .epsilon => true
  | .char _ => false
  | .any => false
  | .cls _ => false
  | .concat r1 r2 => r1.nullable && r2.nullable
  | .alt r1 r2 => r1.nullable || r2.nullable
  | .star _ => true

/-- Brzozowski derivative of a regular expression by one character. -/
def Regex.deriv : Regex → Char → Regex
  | .fail, _ => .fail
  | .epsilon, _ => .fail
  | .char c, a => if a = c then .epsilon else .fail
  | .any, _ => .epsilon
  | .cls cs, a => if a ∈ cs then .epsilon else .fail
  | .concat r1 r2, a =>
      if r1.nullable then .alt (.concat (r1.deriv a) r2) (r2.deriv a)
      else .concat (r1.deriv a) r2
  | .alt r1 r2, a => .alt (r1.deriv a) (r2.deriv a)
  | .star r, a => .concat (r.deriv a) (.star r)

/-- Executable whole-string matcher (the semantics of `re.fullmatch`): the
expression must consume the entire character list. -/
def Regex.fullmatch : Regex → List Char → Bool
  | r, [] => r.nullable
  | r, a :: s => (r.deriv a).fullmatch s

/-- Executable matcher with the semantics of `re.match`: succeeds as soon as
some prefix of the character list (possibly empty, possibly all of it) is
matched by the expression. -/
def Regex.pmatch : Regex → List Char → Bool
  | r, [] => r.nullable
  | r, a :: s => r.nullable || (r.deriv a).pmatch s

/-- Models the truthiness of `compiled.match(s)` as used on source line 139
(`ip0.match(atom0)` etc.): Python's `re.match` anchors at position 0 but does
not require consuming the whole string. -/
def re_match (r : Regex) (s : String) : Bool := r.pmatch s.data

/-- The compiled form of a regex-metacharacter-free pattern string: a literal
concatenation of its characters (e.g. `re.compile("A:ILE:51:CD1")`). -/
def strLit (s : String) : Regex :=
  s.data.foldr (fun c r => .concat (.char c) r) .epsilon

/-- One contact record, as produced by the external contact parser: the source
reads `c[0]` (frame), `c[1]` (interaction type, unused by the filter), `c[2]`
and `c[3]` (the two atom identifiers). -/
structure ContactRecord where
  frame : ℕ
  itype : String
  atom0 : String
  atom1 : String

/-- One input contact file: its display name (Python's `file.name`) and the
contact records parsed from it by the external `parse_contacts`. -/
structure ContactFile where
  name : String
  contacts : List ContactRecord

/-- An interaction pattern as returned by `parse_interaction_patterns`: a pair
of compiled atom selectors. -/
abbrev InteractionPattern := Regex × Regex

/-- Models Python `str.split()` with no argument (used on source line 94):
split on runs of whitespace, discarding empty tokens. Auxiliary recursion
carrying the current (reversed) token. -/
def pySplitAux : List Char → List Char → List String
  | [], acc => if acc.isEmpty then [] else [String.mk acc.reverse]
  | c :: rest, acc =>
      if c.isWhitespace then
        if acc.isEmpty then pySplitAux rest []
        else String.mk acc.reverse :: pySplitAux rest []
      else pySplitAux rest (c :: acc)

/-- Models Python `str.split()` with no argument. -/
def pySplit (s : String) : List String := pySplitAux s.data []

/-- Source lines 93-100: split every raw pattern string on whitespace; if any
entry does not give exactly two tokens, exit with an error (modelled as
`none`); otherwise compile both tokens of each entry. Compilation by the
external `re.compile` is the parameter `compile`. -/
def parse_interaction_patterns (compile : String → Regex) (ipatterns : List String) :
    Option (List InteractionPattern) :=
  let ip_str_pairs := ipatterns.map pySplit
  if ip_str_pairs.any (fun ip => ip.length != 2) then none
  else some (ip_str_pairs.map (fun ip => (compile (ip.getD 0 ""), compile (ip.getD 1 ""))))

/-- Models Python `i.replace(" ", " - ")` on the underlying character list:
the pattern `" "` is a single character, so every space character is replaced
by the three characters `" - "` independently. -/
def replaceSpacesList (l : List Char) : List Char :=
  l.flatMap (fun c => if c = ' ' then [' ', '-', ' '] else [c])

/-- Models Python `i.replace(" ", " - ")` (source line 116). -/
def replaceSpaces (s : String) : String := String.mk (replaceSpacesList s.data)

/-- Source lines 103-116: if labels are supplied, require exactly
`len(interactions) * len(input_files)` of them (mismatch exits, modelled as
`none`) and return them unchanged; otherwise produce one default label per
`(interaction, file)` pair in `itertools.product(interactions, input_files)`
order, i.e. interaction-major / file-minor. -/
def parse_labels (labels : Option (List String)) (input_files : List ContactFile)
    (interactions : List String) : Option (List String) :=
  match labels with
  | some ls =>
      if ls.length != interactions.length * input_files.length then none else some ls
  | none =>
      some (interactions.flatMap
        (fun i => input_files.map (fun f => f.name ++ ": " ++ replaceSpaces i)))

/-- The matching condition of source line 139: with `ip0 = ips[0]` and
`ip1 = ips[1]`, `(ip0.match(atom0) and ip1.match(atom1)) or
(ip0.match(atom1) and ip1.match(atom0))`. -/
def qualifies (ips : InteractionPattern) (c : ContactRecord) : Bool :=
  (re_match ips.1 c.atom0 && re_match ips.2 c.atom1) ||
  (re_match ips.1 c.atom1 && re_match ips.2 c.atom0)

/-- Source lines 134-140: the set `ip_contact_frames`, built by scanning the
records of one contact list and adding `c[0]` whenever the condition of line
139 holds. The Python `set` is a `Finset`. -/
def contactFrames (ips : InteractionPattern) (contacts : List ContactRecord) : Finset ℕ :=
  contacts.foldl (fun s c => if qualifies ips c then insert c.frame s else s) ∅

/-- Source line 142: `sorted(list(ip_contact_frames))`, the frame set of one
(pattern, contact list) pair as an ascending list. -/
def filter_one (ips : InteractionPattern) (contacts : List ContactRecord) : List ℕ :=
  (contactFrames ips contacts).sort (· ≤ ·)

/-- Source lines 127-143: nested loop, outer over the interaction patterns,
inner over the contact lists, appending one frame set per iteration to `ret`. -/
def filter_contacts (contact_lists : List (List ContactRecord))
    (interaction_patterns : List InteractionPattern) : List (List ℕ) :=
  interaction_patterns.foldl
    (fun ret ips =>
      contact_lists.foldl (fun r contacts => r ++ [filter_one ips contacts]) ret)
    []

/-- Source lines 146-168: the renderer stub. Its only semantic content is the
precondition `assert len(contact_frames) == len(labels)` (line 159), modelled
as a guard; the printing and (unimplemented) drawing are I/O. -/
def write_trace (contact_frames : List (List ℕ)) (labels : List String) : Option Unit :=
  if contact_frames.length = labels.length then some () else none

/-- Source lines 82-90 (`main` after argument parsing): compile the patterns,
resolve the labels, filter the contacts of the (externally parsed) input
files, and render. Each fatal `sys.exit` is modelled as `none`. -/
def main_pipeline (compile : String → Regex) (interactions : List String)
    (labels : Option (List String)) (input_files : List ContactFile) :
    Option (List (List ℕ) × List String) :=
  match parse_interaction_patterns compile interactions with
  | none => none
  | some interaction_patterns =>
    match parse_labels labels input_files interactions with
    | none => none
    | some ls =>
      let contact_frames :=
        filter_contacts (input_files.map ContactFile.contacts) interaction_patterns
      match write_trace contact_frames ls with
      | none => none
      | some _ => some (contact_frames, ls)

/-- A contact record with its two atom identifier fields exchanged. -/
def swapAtoms (c : ContactRecord) : ContactRecord :=
  ⟨c.frame, c.itype, c.atom1, c.atom0⟩

/-- Modelled from the spec (§4.2), for comparison with the code's
`parse_labels`: a default label in which only "the single delimiting
whitespace between the pattern's two tokens" is replaced by `" - "`, any
other whitespace being left untouched. -/
def spec_default_label (f : ContactFile) (i : String) : String :=
  match pySplit i with
  | [t0, t1] => f.name ++ ": " ++ t0 ++ " - " ++ t1
  | _ => f.name ++ ": " ++ i

/-- First contact list of the spec's end-to-end example (§8). -/
def exF0 : List ContactRecord :=
  [⟨1, "hb", "A:ILE:51:CD1", "A:PHE:103:CG"⟩, ⟨2, "hb", "X", "Y"⟩]

/-- Second contact list of the spec's end-to-end example (§8). -/
def exF1 : List ContactRecord :=
  [⟨5, "hb", "A:PHE:103:CE1", "A:ILE:51:CD1"⟩]

/-- The compiled form of the example pattern
`"A:ILE:51:CD1 A:PHE:103:C[GDEZ].*"`. -/
def exPat : InteractionPattern :=
  (strLit "A:ILE:51:CD1",
   .concat (strLit "A:PHE:103:C") (.concat (.cls ['G', 'D', 'E', 'Z']) (.star .any)))

/-- A match of the empty word forces nullability. -/
theorem rmatch_nil_nullable : ∀ {r : Regex} {l : List Char}, RMatch r l →
    l = [] → r.nullable = true := by
  intro r l h
  induction h with
  | epsilon => intro _; rfl
  | char c => intro h'; simp at h'
  | any c => intro h'; simp at h'
  | cls hmem => intro h'; simp at h'
  | concat h1 h2 ih1 ih2 =>
      intro h'
      rcases List.append_eq_nil.mp h' with ⟨e1, e2⟩
      simp [Regex.nullable, ih1 e1, ih2 e2]
  | altL h1 ih1 => intro h'; simp [Regex.nullable, ih1 h']
  | altR h1 ih1 => intro h'; simp [Regex.nullable, ih1 h']
  | starNil r => intro _; rfl
  | starCons h1 h2 ih1 ih2 => intro _; rfl

/-- Nullability is equivalent to matching the empty word. -/
theorem nullable_iff (r : Regex) : r.nullable = true ↔ RMatch r [] := by
  constructor
  · intro h
    induction r with
    | fail => simp [Regex.nullable] at h
    | epsilon => exact RMatch.epsilon
    | char c => simp [Regex.nullable] at h
    | any => simp [Regex.nullable] at h
    | cls cs => simp [Regex.nullable] at h
    | concat r1 r2 ih1 ih2 =>
        simp only [Regex.nullable, Bool.and_eq_true] at h
        exact RMatch.concat (ih1 h.1) (ih2 h.2)
    | alt r1 r2 ih1 ih2 =>
        simp only [Regex.nullable, Bool.or_eq_true] at h
        rcases h with h | h
        · exact RMatch.altL (ih1 h)
        · exact RMatch.altR (ih2 h)
    | star r ih => exact RMatch.starNil r
  · intro h
    exact rmatch_nil_nullable h rfl

/-- Soundness of the Brzozowski derivative. -/
theorem deriv_sound : ∀ (r : Regex) (a : Char) (s : List Char),
    RMatch (r.deriv a) s → RMatch r (a :: s) := by
  intro r
  induction r with
  | fail => intro a s h; simp only [Regex.deriv] at h; cases h
  | epsilon => intro a s h; simp only [Regex.deriv] at h; cases h
  | char c =>
      intro a s h
      by_cases hac : a = c
      · simp only [Regex.deriv, hac, if_pos rfl] at h
        cases h
        subst hac
        exact RMatch.char _
      · simp only [Regex.deriv, if_neg hac] at h
        cases h
  | any =>
      intro a s h
      simp only [Regex.deriv] at h
      cases h
      exact RMatch.any a
  | cls cs =>
      intro a s h
      by_cases hmem : a ∈ cs
      · simp only [Regex.deriv, if_pos hmem] at h
        cases h
        exact RMatch.cls hmem
      · simp only [Regex.deriv, if_neg hmem] at h
        cases h
  | concat r1 r2 ih1 ih2 =>
      intro a s h
      by_cases hn : r1.nullable
      · simp only [Regex.deriv, hn, if_true] at h
        cases h with
        | altL h' =>
            cases h' with
            | concat h1 h2 =>
                rw [← List.cons_append]
                exact RMatch.concat (ih1 _ _ h1) h2
        | altR h' =>
            exact RMatch.concat ((nullable_iff r1).mp hn) (ih2 _ _ h')
      · simp only [Regex.deriv, hn, if_false] at h
        cases h with
        | concat h1 h2 =>
            rw [← List.cons_append]
            exact RMatch.concat (ih1 _ _ h1) h2
  | alt r1 r2 ih1 ih2 =>
      intro a s h
      simp only [Regex.deriv] at h
      cases h with
      | altL h' => exact RMatch.altL (ih1 _ _ h')
      | altR h' => exact RMatch.altR (ih2 _ _ h')
  | star r ih =>
      intro a s h
      simp only [Regex.deriv] at h
      cases h with
      | concat h1 h2 =>
          rw [← List.cons_append]
          exact RMatch.starCons (ih _ _ h1) h2

/-- Completeness of the Brzozowski derivative. -/
theorem deriv_complete : ∀ {r : Regex} {l : List Char}, RMatch r l →
    ∀ a s, l = a :: s → RMatch (r.deriv a) s := by
  intro r l h
  induction h with
  | epsilon => intro a s h'; simp at h'
  | char c =>
      intro a s h'
      injection h' with h1 h2
      subst h1
      subst h2
      simp only [Regex.deriv, if_pos rfl]
      exact RMatch.epsilon
  | any c =>
      intro a s h'
      injection h' with h1 h2
      subst h1
      subst h2
      simp only [Regex.deriv]
      exact RMatch.epsilon
  | @cls c cs hmem =>
      intro a s h'
      injection h' with h1 h2
      subst h1
      subst h2
      simp only [Regex.deriv, if_pos hmem]
      exact RMatch.epsilon
  | @concat r1 r2 s1 s2 h1 h2 ih1 ih2 =>
      intro a s h'
      cases s1 with
      | nil =>
          simp only [List.nil_append] at h'
          subst h'
          have hn : r1.nullable = true := rmatch_nil_nullable h1 rfl
          simp only [Regex.deriv, hn, if_true]
          exact RMatch.altR (ih2 a s rfl)
      | cons c t =>
          simp only [List.cons_append] at h'
          injection h' with hca hts
          subst hca
          by_cases hn : r1.nullable
          · simp only [Regex.deriv, hn, if_true]
            exact RMatch.altL (hts ▸ RMatch.concat (ih1 c t rfl) h2)
          · simp only [Regex.deriv, hn, if_false]
            exact hts ▸ RMatch.concat (ih1 c t rfl) h2
  | @altL r1 r2 s0 h1 ih1 =>
      intro a s h'
      simp only [Regex.deriv]
      exact RMatch.altL (ih1 a s h')
  | @altR r1 r2 s0 h1 ih1 =>
      intro a s h'
      simp only [Regex.deriv]
      exact RMatch.altR (ih1 a s h')
  | starNil r => intro a s h'; simp at h'
  | @starCons r s1 s2 h1 h2 ih1 ih2 =>
      intro a s h'
      cases s1 with
      | nil =>
          simp only [List.nil_append] at h'
          subst h'
          exact ih2 a s rfl
      | cons c t =>
          simp only [List.cons_append] at h'
          injection h' with hca hts
          subst hca
          simp only [Regex.deriv]
          exact hts ▸ RMatch.concat (ih1 c t rfl) h2

/-- The executable whole-string matcher agrees with the declarative
semantics. -/
theorem fullmatch_iff (r : Regex) (s : List Char) :
    r.fullmatch s = true ↔ RMatch r s := by
  induction s generalizing r with
  | nil => simpa [Regex.fullmatch] using nullable_iff r
  | cons a t ih =>
      simp only [Regex.fullmatch]
      constructor
      · intro h
        exact deriv_sound r a t ((ih _).mp h)
      · intro h
        exact (ih _).mpr (deriv_complete h a t rfl)

/-- The executable `re.match`-style matcher succeeds exactly when some prefix
of the input is matched by the expression. -/
theorem pmatch_iff (r : Regex) (s : List Char) :
    r.pmatch s = true ↔ ∃ p q : List Char, s = p ++ q ∧ RMatch r p := by
  induction s generalizing r with
  | nil =>
      simp only [Regex.pmatch]
      constructor
      · intro h
        exact ⟨[], [], rfl, (nullable_iff r).mp h⟩
      · rintro ⟨p, q, hpq, hm⟩
        rcases List.append_eq_nil.mp hpq.symm with ⟨rfl, rfl⟩
        exact (nullable_iff r).mpr hm
  | cons a t ih =>
      simp only [Regex.pmatch, Bool.or_eq_true]
      constructor
      · rintro (h | h)
        · exact ⟨[], a :: t, rfl, (nullable_iff r).mp h⟩
        · rcases (ih _).mp h with ⟨p, q, rfl, hm⟩
          exact ⟨a :: p, q, rfl, deriv_sound r a p hm⟩
      · rintro ⟨p, q, hpq, hm⟩
        cases p with
        | nil =>
            left
            exact (nullable_iff r).mpr hm
        | cons c p' =>
            right
            rw [List.cons_append] at hpq
            injection hpq with h1 h2
            subst h1
            exact (ih _).mpr ⟨p', q, h2, deriv_complete hm _ p' rfl⟩

/-- The frame-collecting fold of `filter_contacts` (source lines 134-140),
characterised: starting from `s` it returns `s` together with the frames of
the qualifying records. -/
theorem contactFrames_foldl (ips : InteractionPattern) (l : List ContactRecord) (s : Finset ℕ) :
    l.foldl (fun s c => if qualifies ips c then insert c.frame s else s) s
      = s ∪ ((l.filter (qualifies ips)).map ContactRecord.frame).toFinset := by
  induction l generalizing s with
  | nil => simp
  | cons c t ih =>
      by_cases h : qualifies ips c
      · simp only [List.foldl_cons, if_pos h, List.filter_cons_of_pos h, List.map_cons,
          List.toFinset_cons]
        rw [ih, Finset.insert_union, Finset.union_insert]
      · simp only [List.foldl_cons, if_neg h, List.filter_cons_of_neg h]
        exact ih s

/-- The set of frames collected for one (pattern, contact list) pair is the
set of frames of the qualifying records. -/
theorem contactFrames_eq (ips : InteractionPattern) (l : List ContactRecord) :
    contactFrames ips l = ((l.filter (qualifies ips)).map ContactRecord.frame).toFinset := by
  simpa [contactFrames] using contactFrames_foldl ips l ∅

/-- Membership in one frame set: exactly the frames of qualifying records. -/
theorem mem_filter_one (ips : InteractionPattern) (l : List ContactRecord) (f : ℕ) :
    f ∈ filter_one ips l ↔ ∃ c, c ∈ l ∧ c.frame = f ∧ qualifies ips c = true := by
  simp only [filter_one, Finset.mem_sort, contactFrames_eq, List.mem_toFinset, List.mem_map,
    List.mem_filter]
  constructor
  · rintro ⟨c, ⟨hc, hq⟩, hf⟩
    exact ⟨c, hc, hf, hq⟩
  · rintro ⟨c, hc, hf, hq⟩
    exact ⟨c, ⟨hc, hq⟩, hf⟩

/-- Swapping the two atoms of a record does not change whether it qualifies:
the condition of source line 139 is symmetric in `atom0`, `atom1`. -/
theorem qualifies_swap (ips : InteractionPattern) (c : ContactRecord) :
    qualifies ips (swapAtoms c) = qualifies ips c := by
  simp only [qualifies, swapAtoms]
  exact Bool.or_comm _ _

/-- The frame set is invariant under swapping the atoms of every record. -/
theorem filter_one_map_swap (ips : InteractionPattern) (l : List ContactRecord) :
    filter_one ips (l.map swapAtoms) = filter_one ips l := by
  unfold filter_one
  congr 1
  rw [contactFrames_eq, contactFrames_eq, List.filter_map]
  have h1 : (qualifies ips ∘ swapAtoms) = qualifies ips := funext fun c => qualifies_swap ips c
  rw [h1, List.map_map]
  rfl

/-- Folding `r ++ [g a]` over a list appends the mapped list. -/
theorem foldl_push_eq {α β : Type} (g : α → β) (l : List α) (acc : List β) :
    l.foldl (fun r a => r ++ [g a]) acc = acc ++ l.map g := by
  induction l generalizing acc with
  | nil => simp
  | cons a t ih => simp [ih]

/-- Folding `r ++ g a` over a list appends the flat-mapped list. -/
theorem foldl_flat_eq {α β : Type} (g : α → List β) (l : List α) (acc : List β) :
    l.foldl (fun r a => r ++ g a) acc = acc ++ l.flatMap g := by
  induction l generalizing acc with
  | nil => simp
  | cons a t ih => simp [ih]

/-- The nested loop of `filter_contacts` is the pattern-major / file-minor
enumeration of the per-pair frame sets. -/
theorem filter_contacts_eq (cls : List (List ContactRecord)) (ips : List InteractionPattern) :
    filter_contacts cls ips = ips.flatMap (fun ip => cls.map (fun cl => filter_one ip cl)) := by
  unfold filter_contacts
  rw [show (fun (ret : List (List ℕ)) ips =>
        cls.foldl (fun r contacts => r ++ [filter_one ips contacts]) ret)
      = fun ret ips => ret ++ cls.map (fun cl => filter_one ips cl) from
    funext fun ret => funext fun ip => foldl_push_eq _ _ _]
  simpa using foldl_flat_eq (fun ip => cls.map (fun cl => filter_one ip cl)) ips []

/-- The length of a product-shaped flat map. -/
theorem length_flatMap_map {α β γ : Type} (l1 : List α) (l2 : List β) (g : α → β → γ) :
    (l1.flatMap (fun a => l2.map (g a))).length = l1.length * l2.length := by
  induction l1 with
  | nil => simp
  | cons a t ih => simp [ih, Nat.succ_mul, Nat.add_comm]

/-- Appending distributes over the space-replacement of `parse_labels`. -/
theorem replaceSpacesList_append (a b : List Char) :
    replaceSpacesList (a ++ b) = replaceSpacesList a ++ replaceSpacesList b :=
  List.flatMap_append a b _

/-- Space-replacement keeps a space-free character list unchanged. -/
theorem replaceSpacesList_of_no_space : ∀ (l : List Char), ' ' ∉ l →
    replaceSpacesList l = l := by
  intro l hl
  induction l with
  | nil => rfl
  | cons c t ih =>
      simp only [List.mem_cons, not_or] at hl
      have hc : ¬(c = ' ') := fun h => hl.1 h.symm
      simp only [replaceSpacesList, List.flatMap_cons, if_neg hc]
      have := ih hl.2
      simp only [replaceSpacesList] at this
      rw [this]
      rfl

/-- C1: the Frame Filter enumerates its output pattern-major / file-minor —
for patterns `[P0, P1]` and files `[F0, F1]` the output is exactly
`[filter(P0,F0), filter(P0,F1), filter(P1,F0), filter(P1,F1)]` — and this is
the same `product(patterns, files)` order in which the Label Resolver
enumerates the default labels, so the i-th frame set corresponds to the i-th
default label. -/
theorem C1_frame_filter_ordering (ips : List InteractionPattern)
    (cls : List (List ContactRecord)) (ints : List String) (files : List ContactFile) :
    filter_contacts cls ips = ips.flatMap (fun ip => cls.map (fun cl => filter_one ip cl))
    ∧ (filter_contacts cls ips).length = ips.length * cls.length
    ∧ (∀ (P0 P1 : InteractionPattern) (F0 F1 : List ContactRecord),
        filter_contacts [F0, F1] [P0, P1]
          = [filter_one P0 F0, filter_one P0 F1, filter_one P1 F0, filter_one P1 F1])
    ∧ parse_labels none files ints
        = some (ints.flatMap (fun i => files.map (fun f => f.name ++ ": " ++ replaceSpaces i))) := by
  refine ⟨filter_contacts_eq cls ips, ?_, ?_, rfl⟩
  · rw [filter_contacts_eq]
    exact length_flatMap_map _ _ _
  · intro P0 P1 F0 F1
    rw [filter_contacts_eq]
    rfl

/-- C2: a record contributes its frame to the frame set iff its two atoms are
matched by the pattern's two selectors in either orientation, so swapping the
two atom fields of every record never changes the frame set. -/
theorem C2_symmetric_matching (ips : InteractionPattern) (cl : List ContactRecord) :
    (∀ f : ℕ, f ∈ filter_one ips cl ↔ ∃ c, c ∈ cl ∧ c.frame = f ∧
        ((re_match ips.1 c.atom0 && re_match ips.2 c.atom1) ||
         (re_match ips.1 c.atom1 && re_match ips.2 c.atom0)) = true)
    ∧ filter_one ips (cl.map swapAtoms) = filter_one ips cl :=
  ⟨fun f => mem_filter_one ips cl f, filter_one_map_swap ips cl⟩

/-- C3: every frame set is strictly ascending and contains each of its frames
exactly once, however many records contributed it. -/
theorem C3_dedup_sorted (ips : InteractionPattern) (cl : List ContactRecord) :
    List.Sorted (· < ·) (filter_one ips cl)
    ∧ ∀ f : ℕ, (filter_one ips cl).count f = if f ∈ filter_one ips cl then 1 else 0 := by
  refine ⟨Finset.sort_sorted_lt _, fun f => ?_⟩
  split
  · exact List.count_eq_one_of_mem (Finset.sort_nodup _ _) (by assumption)
  · exact List.count_eq_zero_of_not_mem (by assumption)

/-- C10: the frame set of a concatenated contact list is the sorted
deduplicated union of the two frame sets. -/
theorem C10_append_union (ips : InteractionPattern) (c1 c2 : List ContactRecord) :
    filter_one ips (c1 ++ c2)
      = Finset.sort (· ≤ ·) ((filter_one ips c1).toFinset ∪ (filter_one ips c2).toFinset) := by
  unfold filter_one
  rw [Finset.sort_toFinset, Finset.sort_toFinset]
  congr 1
  rw [contactFrames_eq, contactFrames_eq, contactFrames_eq, List.filter_append,
    List.map_append, List.toFinset_append]

/-- C5: with labels supplied, `parse_labels` fails exactly when the label
count differs from `patterns × files`, and otherwise returns the supplied
labels unchanged. -/
theorem C5_label_count (ls : List String) (files : List ContactFile) (ints : List String) :
    (parse_labels (some ls) files ints = none ↔ ls.length ≠ ints.length * files.length)
    ∧ (ls.length = ints.length * files.length → parse_labels (some ls) files ints = some ls) := by
  by_cases h : ls.length = ints.length * files.length
  · refine ⟨?_, fun _ => ?_⟩ <;> simp [parse_labels, h]
  · refine ⟨?_, fun h' => absurd h' h⟩
    simp [parse_labels, h]

/-- Witness for C5 at a concrete matching count. -/
theorem C5_witness : parse_labels (some ["x"]) [⟨"f", []⟩] ["a b"] = some ["x"] :=
  (C5_label_count ["x"] [⟨"f", []⟩] ["a b"]).2 rfl

/-- C4: the spec's end-to-end example — pattern
`"A:ILE:51:CD1 A:PHE:103:C[GDEZ].*"` against the two example contact lists
gives frame set `[1]` for the first file and `[5]` for the second (whose
record matches in reversed orientation). -/
theorem C4_end_to_end : filter_contacts [exF0, exF1] [exPat] = [[1], [5]] := by
  have e0 : (exF0.filter (qualifies exPat)).map ContactRecord.frame = [1] := by decide
  have e1 : (exF1.filter (qualifies exPat)).map ContactRecord.frame = [5] := by decide
  have h0 : filter_one exPat exF0 = [1] := by
    unfold filter_one
    rw [contactFrames_eq, e0]
    simp
  have h1 : filter_one exPat exF1 = [5] := by
    unfold filter_one
    rw [contactFrames_eq, e1]
    simp
  rw [filter_contacts_eq]
  simp [h0, h1]

/-- C6: the Pattern Compiler fails exactly when some raw pattern string does
not split into two whitespace-separated tokens (e.g. the one-token string
`"A:HIS:172:NE2"`), the failure is independent of the contact files, and on
success it returns one compiled pair per input string in input order, without
merging textually identical patterns. -/
theorem C6_pattern_compiler (compile : String → Regex) (ipatterns : List String) :
    (parse_interaction_patterns compile ipatterns = none
        ↔ ∃ ip ∈ ipatterns, (pySplit ip).length ≠ 2)
    ∧ (∀ ips, parse_interaction_patterns compile ipatterns = some ips →
        ips = (ipatterns.map pySplit).map
          (fun p => (compile (p.getD 0 ""), compile (p.getD 1 ""))))
    ∧ parse_interaction_patterns compile ["A:HIS:172:NE2"] = none
    ∧ parse_interaction_patterns compile ["a b", "a b"]
        = some [(compile "a", compile "b"), (compile "a", compile "b")]
    ∧ (∀ (labs : Option (List String)) (files files' : List ContactFile),
        parse_interaction_patterns compile ipatterns = none →
        main_pipeline compile ipatterns labs files
          = main_pipeline compile ipatterns labs files') := by
  refine ⟨⟨?_, ?_⟩, ?_, ?_, ?_, ?_⟩
  · intro h
    unfold parse_interaction_patterns at h
    dsimp only at h
    split at h
    · rename_i hb
      simp only [List.any_eq_true, List.mem_map, bne_iff_ne, ne_eq] at hb
      rcases hb with ⟨p, ⟨ip, hip, rfl⟩, hlen⟩
      exact ⟨ip, hip, hlen⟩
    · simp at h
  · rintro ⟨ip, hip, hlen⟩
    have hb : ((ipatterns.map pySplit).any fun p => p.length != 2) = true := by
      simp only [List.any_eq_true, List.mem_map, bne_iff_ne, ne_eq]
      exact ⟨pySplit ip, ⟨ip, hip, rfl⟩, hlen⟩
    unfold parse_interaction_patterns
    dsimp only
    rw [if_pos hb]
  · intro ips h
    unfold parse_interaction_patterns at h
    dsimp only at h
    split at h
    · simp at h
    · simp only [Option.some.injEq] at h
      exact h.symm
  · have hb : ((["A:HIS:172:NE2"].map pySplit).any fun p => p.length != 2) = true := by
      decide
    unfold parse_interaction_patterns
    dsimp only
    rw [if_pos hb]
  · have hb : ((["a b", "a b"].map pySplit).any fun p => p.length != 2) = false := by
      decide
    have hsp : pySplit "a b" = ["a", "b"] := by decide
    unfold parse_interaction_patterns
    dsimp only
    rw [if_neg (by rw [hb]; simp)]
    simp [hsp]
  · intro labs files files' h
    unfold main_pipeline
    rw [h]

/-- Witness for C6: the malformed-pattern failure is independent of the
contact files, and duplicate patterns are compiled twice, at concrete inputs. -/
theorem C6_witness :
    main_pipeline (fun _ => Regex.epsilon) ["A:HIS:172:NE2"] none
        [⟨"g", [⟨1, "hb", "x", "y"⟩]⟩]
      = main_pipeline (fun _ => Regex.epsilon) ["A:HIS:172:NE2"] none []
    ∧ ([((Regex.epsilon, Regex.epsilon) : InteractionPattern), (Regex.epsilon, Regex.epsilon)]
        = (["a b", "a b"].map pySplit).map
            (fun p => ((fun _ => Regex.epsilon) (p.getD 0 ""),
                       (fun _ => Regex.epsilon) (p.getD 1 "")))) :=
  ⟨(C6_pattern_compiler (fun _ => Regex.epsilon) ["A:HIS:172:NE2"]).2.2.2.2 none
      [⟨"g", [⟨1, "hb", "x", "y"⟩]⟩] [] (by decide),
   (C6_pattern_compiler (fun _ => Regex.epsilon) ["a b", "a b"]).2.1
      [(Regex.epsilon, Regex.epsilon), (Regex.epsilon, Regex.epsilon)] (by decide)⟩

/-- C7 counterexample: for the two-token pattern `"A\tB"` (tokens delimited
by a tab) the code's default label keeps the tab, because line 116 replaces
only space characters, while the spec's described label replaces the single
delimiting whitespace by `" - "`. -/
theorem C7_counterexample :
    parse_labels none [⟨"f", []⟩] ["A\tB"] = some ["f: A\tB"]
    ∧ pySplit "A\tB" = ["A", "B"]
    ∧ spec_default_label ⟨"f", []⟩ "A\tB" = "f: A - B"
    ∧ parse_labels none [⟨"f", []⟩] ["A\tB"]
        ≠ some [spec_default_label ⟨"f", []⟩ "A\tB"] := by
  refine ⟨by decide, by decide, by decide, ?_⟩
  intro h
  simp only [show spec_default_label ⟨"f", []⟩ "A\tB" = "f: A - B" from by decide] at h
  exact absurd h (by decide)

/-- C7 as amended: each default label is
`<file name>: <pattern with every space character replaced by " - ">`; in
particular, when the pattern's two tokens are delimited by exactly one space
character and contain no space themselves, exactly the delimiting space is
replaced. -/
theorem C7_default_label (ints : List String) (files : List ContactFile)
    (t0 t1 : String) (h0 : ' ' ∉ t0.data) (h1 : ' ' ∉ t1.data) :
    parse_labels none files ints
      = some (ints.flatMap (fun i => files.map (fun f => f.name ++ ": " ++ replaceSpaces i)))
    ∧ replaceSpaces (t0 ++ " " ++ t1) = t0 ++ " - " ++ t1 := by
  refine ⟨rfl, ?_⟩
  have hdata : replaceSpacesList (t0 ++ " " ++ t1).data = (t0 ++ " - " ++ t1).data := by
    rw [String.data_append, String.data_append, String.data_append, String.data_append]
    rw [replaceSpacesList_append, replaceSpacesList_append,
      replaceSpacesList_of_no_space t0.data h0, replaceSpacesList_of_no_space t1.data h1]
    rfl
  exact congrArg String.mk hdata

/-- Witness for C7 (amended) at concrete space-free tokens. -/
theorem C7_witness :
    parse_labels none [] []
      = some (([] : List String).flatMap
          (fun i => ([] : List ContactFile).map (fun f => f.name ++ ": " ++ replaceSpaces i)))
    ∧ replaceSpaces ("A" ++ " " ++ "B") = "A" ++ " - " ++ "B" :=
  C7_default_label [] [] "A" "B" (by decide) (by decide)

/-- C8: selector matching has `re.match` semantics — the compiled selector
matches an atom identifier exactly when some prefix of the identifier
(starting at position 0, not necessarily the whole string) is in the
selector's language; in particular the selector `A:GLU:143:O` also matches
identifiers continuing with `OE1` / `OE2`, which a full-string match would
reject. -/
theorem C8_prefix_semantics :
    (∀ (r : Regex) (s : String),
        re_match r s = true ↔ ∃ p q : List Char, s.data = p ++ q ∧ RMatch r p)
    ∧ re_match (strLit "A:GLU:143:O") "A:GLU:143:OE1" = true
    ∧ re_match (strLit "A:GLU:143:O") "A:GLU:143:OE2" = true
    ∧ (strLit "A:GLU:143:O").fullmatch ("A:GLU:143:OE1").data = false :=
  ⟨fun r s => pmatch_iff r s.data, by decide, by decide, by decide⟩

/-- C9: whenever pattern compilation and label resolution both succeed, the
Frame Filter produces exactly `|patterns| × |files|` frame sets, which equals
the label count, so the render-time precondition of `write_trace` always
holds. -/
theorem C9_render_guard (compile : String → Regex) (ints : List String)
    (labs : Option (List String)) (files : List ContactFile)
    (ips : List InteractionPattern) (ls : List String)
    (h1 : parse_interaction_patterns compile ints = some ips)
    (h2 : parse_labels labs files ints = some ls) :
    (filter_contacts (files.map ContactFile.contacts) ips).length = ls.length
    ∧ write_trace (filter_contacts (files.map ContactFile.contacts) ips) ls = some () := by
  have hips : ips.length = ints.length := by
    unfold parse_interaction_patterns at h1
    dsimp only at h1
    split at h1
    · simp at h1
    · simp only [Option.some.injEq] at h1
      rw [← h1, List.length_map, List.length_map]
  have hls : ls.length = ints.length * files.length := by
    match labs, h2 with
    | none, h2 =>
        simp only [parse_labels, Option.some.injEq] at h2
        rw [← h2]
        exact length_flatMap_map _ _ _
    | some l, h2 =>
        simp only [parse_labels] at h2
        split at h2
        · simp at h2
        · rename_i hb
          simp only [Option.some.injEq] at h2
          rw [← h2]
          simpa using hb
  have hlen : (filter_contacts (files.map ContactFile.contacts) ips).length = ls.length := by
    rw [filter_contacts_eq, length_flatMap_map, hips, hls, List.length_map]
  exact ⟨hlen, by simp [write_trace, hlen]⟩

/-- Witness for C9 at a concrete successful run. -/
theorem C9_witness :
    (filter_contacts [([] : List ContactRecord)]
        [((Regex.epsilon, Regex.epsilon) : InteractionPattern)]).length
      = (["f: a - b"] : List String).length
    ∧ write_trace (filter_contacts [[]] [(Regex.epsilon, Regex.epsilon)]) ["f: a - b"]
        = some () :=
  C9_render_guard (fun _ => Regex.epsilon) ["a b"] none [⟨"f", []⟩]
    [(Regex.epsilon, Regex.epsilon)] ["f: a - b"] (by decide) (by decide)
